import Mathlib

/-!
# Verification of the metrics normalization and impact-analysis engine

Shallow embedding of the core of `dataset-tools/shared_metrics_utils.py`:
value coercion in `extract_metrics`, the histogram quantile estimator
`process_latency_buckets`, the derived-metric blocks of
`calculate_derived_metrics` (reporting intervals, latency-ms aggregation,
rolling z-scores), the cpu path of `analyze_impact`, and
`calculate_percent_increase`.

Modelling conventions:

* A Python float that may be NaN is `Option ℚ` (`none` is NaN, `some q` a
  finite value).  All concrete constants exercised by the claims
  (10, 40, 0.95, 0.5, 1000, ...) are exactly representable both as IEEE-754
  doubles and as rationals, so no rounding questions arise on the inputs at
  stake.
* Rational arithmetic is routed through small computable wrappers
  (`qadd`, `qmul`, `qdiv`, `qle`, ...) built on `mkRat` / `Rat.divInt` and
  integer arithmetic, so that every definition evaluates inside the kernel;
  bridge lemmas identify each wrapper with the corresponding standard
  operation on `ℚ`, and theorem statements use the standard operations.
* `pandas` columns are sparse: a row that lacks a key holds NaN in that
  column, which the row model reproduces by defaulting a missing cell to
  `none`.
-/

namespace MetricsEngine

/-- A Python float value that may be NaN: `none` models NaN. -/
abbrev PQ := Option ℚ

/-! ## Kernel-computable rational operations

`Rat.add`/`Rat.mul`/... do not reduce inside the kernel, while `mkRat` and
`Rat.divInt` do.  The engine's definitions therefore use the wrappers below;
the bridge lemmas restate each wrapper as the standard `ℚ` operation. -/

/-- Computable addition on `ℚ`. -/
def qadd (a b : ℚ) : ℚ := mkRat (a.num * b.den + b.num * a.den) (a.den * b.den)

/-- Computable negation on `ℚ`. -/
def qneg (a : ℚ) : ℚ := mkRat (-a.num) a.den

/-- Computable subtraction on `ℚ`. -/
def qsub (a b : ℚ) : ℚ := qadd a (qneg b)

/-- Computable multiplication on `ℚ`. -/
def qmul (a b : ℚ) : ℚ := mkRat (a.num * b.num) (a.den * b.den)

/-- Computable division on `ℚ` (with the `x / 0 = 0` convention of `ℚ`;
every use in the engine is guarded so that the divisor is nonzero). -/
def qdiv (a b : ℚ) : ℚ := Rat.divInt (a.num * b.den) (a.den * b.num)

/-- Computable `≤` test on `ℚ`. -/
def qle (a b : ℚ) : Bool := decide (a.num * (b.den : ℤ) ≤ b.num * (a.den : ℤ))

/-- Computable `<` test on `ℚ`. -/
def qlt (a b : ℚ) : Bool := decide (a.num * (b.den : ℤ) < b.num * (a.den : ℤ))

/-- Computable binary maximum on `ℚ`, as Python's `max(a, b)`. -/
def qmax (a b : ℚ) : ℚ := if qle a b then b else a

/-- Computable absolute value on `ℚ`. -/
def qabs (a : ℚ) : ℚ := if qle 0 a then a else qneg a

/-- Computable sum of a list of rationals. -/
def qsum (l : List ℚ) : ℚ := l.foldr qadd 0

/-! ## `calculate_percent_increase`  (shared_metrics_utils.py lines 764-768)

```python
def calculate_percent_increase(baseline_value, new_value):
    if np.isnan(baseline_value) or np.isnan(new_value) or baseline_value == 0:
        return np.nan
    return ((new_value / baseline_value) - 1) * 100
```
The guard precedes the division, so the function is total and never performs
a division by zero; the embedding is correspondingly a total function. -/

/-- Percent increase from a baseline value to a new value, NaN-guarded
exactly as in the source. -/
def calculate_percent_increase (baseline_value new_value : PQ) : PQ :=
  match baseline_value, new_value with
  | none, _ => none
  | some _, none => none
  | some b, some n =>
    if b = 0 then none else some (qmul (qsub (qdiv n b) 1) 100)

/-! ## Histogram quantile estimator
(`process_latency_buckets`, shared_metrics_utils.py lines 320-430)

Per (sensor, endpoint) the source receives a dict mapping bucket upper bound
(float, `float("inf")` for the `le="inf"` label) to cumulative count, sorts
its items ascending, and estimates the p95 latency.  The embedding takes the
dict items as a list of (bound, count) pairs (a dict has pairwise-distinct
bounds) and performs the same sort. -/

/-- A histogram bucket upper bound: a finite float or `+∞`. -/
inductive EBound
  | fin (q : ℚ)
  | inf
deriving DecidableEq

/-- Bound test for the `bound == float("inf")` comparisons of the source. -/
def EBound.isInf : EBound → Bool
  | .inf => true
  | .fin _ => false

/-- Strict comparison of bucket bounds: `+∞` is above every finite bound. -/
def EBound.ltB : EBound → EBound → Bool
  | .fin a, .fin b => qlt a b
  | .fin _, .inf => true
  | .inf, _ => false

/-- Python tuple comparison `(bound, count) <= (bound2, count2)` used by
`sorted(bucket_bounds.items())`. -/
def bucketLE (p q : EBound × ℚ) : Prop :=
  (EBound.ltB p.1 q.1 || (decide (p.1 = q.1) && qle p.2 q.2)) = true

instance : DecidableRel bucketLE := fun _ _ =>
  inferInstanceAs (Decidable (_ = true))

/-- The latency estimate attached to one (sensor, endpoint) of one row:
the `latency_ms_*` value, the `*_estimated` flag and the `*_method` tag. -/
structure LatencyEstimate where
  value : PQ
  is_estimated : Bool
  method : String
deriving DecidableEq

/-- The finite-bound buckets, in order (`non_inf_buckets` in the source). -/
def finiteBuckets (l : List (EBound × ℚ)) : List (ℚ × ℚ) :=
  l.filterMap fun p =>
    match p with
    | (.fin b, c) => some (b, c)
    | (.inf, _) => none

/-- The total count: the `+∞` bucket's count if present, otherwise the last
finite bucket's count (`inf_count` in the source). -/
def infCountOf (s : List (EBound × ℚ)) (ni : List (ℚ × ℚ)) : ℚ :=
  match s.find? (fun p => p.1.isInf) with
  | some p => p.2
  | none => (ni.getLastD (0, 0)).2

/-- The linear interpolation of the source (lines 385-386):
`fraction = (target - current_count) / max(1, next_count - current_count)`,
`estimated = current_bound + fraction * (next_bound - current_bound)`.
Note the `max(1, ...)` guard in the denominator. -/
def interpFormula (target : ℚ) (p q : ℚ × ℚ) : ℚ :=
  qadd p.1 (qmul (qdiv (qsub target p.2) (qmax 1 (qsub q.2 p.2))) (qsub q.1 p.1))

/-- The interpolation scan of the source: walk adjacent finite-bucket pairs
in order and stop at the first pair with
`current_count <= target_count <= next_count`. -/
def interpScan (target : ℚ) : List (ℚ × ℚ) → Option ℚ
  | (b1, c1) :: (b2, c2) :: rest =>
    if qle c1 target && qle target c2 then
      some (interpFormula target (b1, c1) (b2, c2))
    else interpScan target ((b2, c2) :: rest)
  | _ => none

/-- The branch structure of `process_latency_buckets` (lines 350-423),
applied to the already-sorted bucket list `sorted_bounds`. -/
def pbAfterSort (s : List (EBound × ℚ)) : LatencyEstimate :=
  if s.isEmpty then ⟨none, true, "no_data"⟩
  else if 2 ≤ s.length then
    if 2 ≤ (finiteBuckets s).length then
      if qlt 0 (infCountOf s (finiteBuckets s)) then
        match interpScan (qmul (infCountOf s (finiteBuckets s)) (mkRat 95 100))
            (finiteBuckets s) with
        | some est => ⟨some (qmul est 1000), false, "interpolation"⟩
        | none =>
          ⟨some (qmul ((finiteBuckets s).getLastD (0, 0)).1 1000), true, "highest_bucket"⟩
      else ⟨none, true, "zero_counts"⟩
    else ⟨none, true, "insufficient_buckets"⟩
  else
    match s with
    | (EBound.inf, _) :: _ => ⟨none, true, "only_inf_bucket"⟩
    | (EBound.fin b, _) :: _ => ⟨some (qmul b 1000), true, "single_bucket"⟩
    | [] => ⟨none, true, "no_data"⟩

/-- The p95 estimator applied to one bucket set (the items of the per-
sensor/endpoint bucket dict): `sorted(bucket_bounds.items())` followed by
the branch logic. -/
def processBuckets (buckets : List (EBound × ℚ)) : LatencyEstimate :=
  pbAfterSort (List.insertionSort bucketLE buckets)

/-! ### Properties of the estimator (claims C3, C4, C5) -/

/-- Strict ascending order of bucket bounds; a bucket set (a Python dict
keyed by bound) listed in ascending bound order satisfies this. -/
def boundLT (p q : EBound × ℚ) : Prop := EBound.ltB p.1 q.1 = true

instance : DecidableRel boundLT := fun _ _ =>
  inferInstanceAs (Decidable (_ = true))

/-- Input for the C4 witness: buckets `{1: 90, 2: 100, inf: 100}`,
target `100 * 0.95 = 95`, bracketed by the first finite pair. -/
def c4input : List (EBound × ℚ) :=
  [(EBound.fin 1, 90), (EBound.fin 2, 100), (EBound.inf, 100)]

/-- The claim's "target falls strictly between two adjacent finite bucket
counts", as a Boolean scan over the adjacent finite-bucket pairs. -/
def targetStrictlyInside (t : ℚ) (ni : List (ℚ × ℚ)) : Bool :=
  (ni.zip ni.tail).any fun pq => qlt pq.1.2 t && qlt t pq.2.2

/-! ## The flat working table

One row per metrics snapshot, as produced by `extract_metrics` and
concatenated by `process_dataset`: the fixed fields `timestamp`, `phase`,
`vulnerability_type` plus a sparse mapping of synthesized column name to
float.  `rid` is the pandas row index (row identity).  A column absent from
a row reads as NaN, as it does after `pd.concat`. -/

structure NRow where
  rid : Nat
  phase : String
  vulnType : String
  timestamp : ℚ
  cells : List (String × PQ)
deriving DecidableEq

/-- Python `p` is a prefix of `s` (`str.startswith`), over the char data. -/
def strHasPre (p s : String) : Bool := p.data.isPrefixOf s.data

/-- Python `p` is a suffix of `s` (`str.endswith`), over the char data. -/
def strHasSuf (p s : String) : Bool := p.data.isSuffixOf s.data

/-- Read one cell of a row; a missing key is NaN. -/
def rowCell (r : NRow) (name : String) : PQ :=
  (List.lookup name r.cells).getD none

/-- Write one cell of a row (pandas `df.at` / column assignment restricted
to one row): the binding for `name` is replaced. -/
def setCell (r : NRow) (name : String) (v : PQ) : NRow :=
  { r with cells := (name, v) :: r.cells.filter (fun c => !(c.1 == name)) }

/-- The table's column set in order of first appearance (`df.columns` for
the concatenated frame). -/
def allCols (rows : List NRow) : List String :=
  rows.foldl
    (fun acc r =>
      r.cells.foldl (fun a c => if a.contains c.1 then a else a ++ [c.1]) acc)
    []

/-- Phases in order of first appearance (`df["phase"].unique()`). -/
def uniquePhases (rows : List NRow) : List String :=
  rows.foldl (fun acc r => if acc.contains r.phase then acc else acc ++ [r.phase]) []

/-- Column mean as `pandas.Series.mean()`: skip NaN; all-NaN or empty gives NaN. -/
def pandasMean (vs : List PQ) : PQ :=
  let xs := vs.filterMap id
  if xs.isEmpty then none
  else some (qdiv (qsum xs) (mkRat xs.length 1))

/-- Mean as `numpy.mean` over a Python list of floats: NaN-propagating arithmetic
mean, with the source's `if lst else np.nan` guard for the empty list. -/
def npMean (vs : List PQ) : PQ :=
  if vs.isEmpty then none
  else if vs.any (·.isNone) then none
  else some (qdiv (qsum (vs.filterMap id)) (mkRat vs.length 1))

/-! ## The cpu path of `analyze_impact` (lines 576-735)

`analyze_impact` builds one summary row per (fault type, phase) whose
`avg_cpu` is `np.mean([phase_df[col].mean() for col in cpu_cols])`, then for
each fault type with both a baseline and an event summary row emits an
impact record with
`cpu_increase_percent = calculate_percent_increase(baseline_avg, event_avg)`.
A fault type lacking either phase is skipped (`continue`), modelled by the
`Option` result. -/

/-- The rows of one (fault type, phase) group
(`df[(df["vulnerability_type"] == fault) & (df["phase"] == phase)]`). -/
def phaseRows (rows : List NRow) (fault phase : String) : List NRow :=
  rows.filter (fun r => r.vulnType == fault && r.phase == phase)

/-- The cpu columns of the table (`col.startswith("cpu_")`, line 580). -/
def cpuCols (rows : List NRow) : List String :=
  (allCols rows).filter (fun n => strHasPre "cpu_" n)

/-- The `avg_cpu` of one summary row: per-column pandas mean over the group's
rows, then numpy mean across the cpu columns (lines 620-624, 694). -/
def avgCpuOf (rows : List NRow) (cols : List String) : PQ :=
  npMean (cols.map (fun c => pandasMean (rows.map (fun r => rowCell r c))))

/-- The `cpu_increase_percent` of the impact record for one fault type:
`none` when the baseline or event phase group is empty (record skipped),
otherwise the percent increase of the event-phase cpu average over the
baseline-phase cpu average (lines 713-728). -/
def impactCpuIncrease (rows : List NRow) (fault : String) : Option PQ :=
  if (phaseRows rows fault "baseline").isEmpty ||
      (phaseRows rows fault "event").isEmpty then none
  else
    some (calculate_percent_increase
      (avgCpuOf (phaseRows rows fault "baseline") (cpuCols rows))
      (avgCpuOf (phaseRows rows fault "event") (cpuCols rows)))

/-- C1 counterexample: one baseline row with `cpu_X = 10` and one event
row with `cpu_X = 40` yield `cpu_increase_percent = 300.0`, not the claimed
`200.0` (`(40/10 - 1) * 100 = 300`). -/
def c1rows : List NRow :=
  [⟨0, "baseline", "dos", 0, [("cpu_X", some 10)]⟩,
   ⟨1, "event", "dos", 1, [("cpu_X", some 40)]⟩]

/-- Witness dataset for the amended C1: two baseline rows and one event row
of an `exhaustion` experiment. -/
def c1wrows : List NRow :=
  [⟨0, "baseline", "exhaustion", 0, [("cpu_X", some 10)]⟩,
   ⟨1, "baseline", "exhaustion", 5, [("cpu_X", some 10)]⟩,
   ⟨2, "event", "exhaustion", 10, [("cpu_X", some 40)]⟩]

/-! ## Reporting-interval block of `calculate_derived_metrics`
(lines 218-236)

For each sensor temperature column, for each phase: filter the phase's
rows, sort a copy by timestamp (`sort_values("timestamp")`, stable,
ascending), take consecutive timestamp differences (`.diff()`, first row
NaN), and write the result back into the frame aligned on the original row
index (`df.loc[idx, col] = ...`). -/

/-- Row comparison used by `sort_values("timestamp")`. -/
def rowLE (r1 r2 : NRow) : Prop := qle r1.timestamp r2.timestamp = true

instance : DecidableRel rowLE := fun _ _ =>
  inferInstanceAs (Decidable (_ = true))

/-- Stable ascending sort of rows by timestamp. -/
def sortRowsByTimestamp (rows : List NRow) : List NRow :=
  List.insertionSort rowLE rows

/-- The (row index, interval) pairs produced for one phase: the earliest
row gets NaN, each later row the difference to its predecessor; the phase is
skipped entirely when it has fewer than two rows (`len(phase_df) > 1`). -/
def phaseIntervalPairs (rows : List NRow) (ph : String) : List (Nat × PQ) :=
  let pr := rows.filter (fun r => r.phase == ph)
  if 1 < pr.length then
    match sortRowsByTimestamp pr with
    | [] => []
    | first :: rest =>
      (first.rid, none) ::
        ((first :: rest).zip rest).map
          (fun pq => (pq.2.rid, some (qsub pq.2.timestamp pq.1.timestamp)))
  else []

/-- Index-aligned write-back (`df.loc[idx, col] = series`): the computed intervals go into the
rows with the matching index labels; other rows keep the column missing
(NaN). -/
def applyIntervalUpdates (rows : List NRow) (name : String)
    (upds : List (Nat × PQ)) : List NRow :=
  rows.map fun r =>
    match List.lookup r.rid upds with
    | some v => setCell r name v
    | none => r

/-- The reporting-interval computation for one sensor id: iterate the
phases in order of first appearance, updating the frame in place. -/
def reportingIntervalBlockForSensor (rows : List NRow) (sid : String) :
    List NRow :=
  (uniquePhases rows).foldl
    (fun acc ph =>
      applyIntervalUpdates acc ("reporting_interval_" ++ sid)
        (phaseIntervalPairs acc ph))
    rows

/-- The four snapshot rows of the C7 scenario: one phase, timestamps
0, 5, 10, 17, row indices 0-3, one sensor temperature column. -/
def c7rows : List NRow :=
  [⟨0, "baseline", "fault", 0, [("temperature_X", some 20)]⟩,
   ⟨1, "baseline", "fault", 5, [("temperature_X", some 21)]⟩,
   ⟨2, "baseline", "fault", 10, [("temperature_X", some 22)]⟩,
   ⟨3, "baseline", "fault", 17, [("temperature_X", some 23)]⟩]

/-- The expected interval for each original row identity: NaN for the
timestamp-0 row, then 5, 5, 7 in timestamp order. -/
def c7expected : Nat → PQ
  | 0 => none
  | 1 => some 5
  | 2 => some 5
  | 3 => some 7
  | _ => none

/-- All ways to insert `x` into a list. -/
def insertEverywhere (x : α) : List α → List (List α)
  | [] => [[x]]
  | y :: ys => (x :: y :: ys) :: (insertEverywhere x ys).map (y :: ·)

/-- All permutations of a list, by structural recursion (so that the
enumeration evaluates inside the kernel). -/
def permsOf : List α → List (List α)
  | [] => [[]]
  | x :: xs => (permsOf xs).flatMap (insertEverywhere x)

/-! ## Rolling z-score block of `calculate_derived_metrics`
(lines 282-293)

```python
df[f"{col}_roll_mean"] = df[col].rolling(5, min_periods=1).mean()
df[f"{col}_roll_std"]  = df[col].rolling(5, min_periods=1).std()
df[f"{col}_zscore"] = np.abs((df[col] - df[f"{col}_roll_mean"]) /
                             df[f"{col}_roll_std"].replace(0, np.nan))
```
`pandas` semantics embedded here: the window at position `i` holds the last
up-to-5 values; `mean` skips NaN and needs at least `min_periods = 1`
observations; `std` is the square root of the sample variance (ddof = 1) and
is NaN with fewer than two observations.  The square root of a rational is
irrational in general, so the embedding is parametric in the square-root
function `sqrtFn`; the claims constrain it only where they need it
(`sqrtFn 0 = 0`, true of the real square root).  The `numpy` quotient is
modelled in a three-valued domain so that "NaN, never infinite" is a
statement, with `x/0 = ±inf` for `x ≠ 0` and `0/0 = NaN` as in `numpy`. -/

/-- A float that may also be infinite: the codomain of the `numpy`
division. -/
inductive NPVal
  | nan
  | inf
  | fin (q : ℚ)
deriving DecidableEq

/-- The trailing window of width 5 at row `i` (`rolling(5)`). -/
def rollWindow (vals : List PQ) (i : Nat) : List PQ :=
  (vals.take (i + 1)).drop (i + 1 - 5)

/-- The sample variance (ddof = 1) of the observations. -/
def sampleVar (xs : List ℚ) : ℚ :=
  qdiv
    (qsum (xs.map fun x =>
      qmul (qsub x (qdiv (qsum xs) (mkRat xs.length 1)))
        (qsub x (qdiv (qsum xs) (mkRat xs.length 1)))))
    (mkRat (xs.length - 1) 1)

/-- Rolling std `rolling(5, min_periods=1).std()` on one window: NaN below two non-NaN
observations, otherwise the square root of the sample variance. -/
def pandasRollStd (sqrtFn : ℚ → ℚ) (w : List PQ) : PQ :=
  let xs := w.filterMap id
  if 2 ≤ xs.length then some (sqrtFn (sampleVar xs)) else none

/-- Zero replacement `.replace(0, np.nan)` on one value. -/
def replaceZeroNaN (v : PQ) : PQ :=
  match v with
  | none => none
  | some q => if q = 0 then none else some q

/-- Division as in `numpy` of two possibly-NaN floats. -/
def numpyDiv (a b : PQ) : NPVal :=
  match a, b with
  | none, _ => .nan
  | _, none => .nan
  | some x, some y => if y = 0 then (if x = 0 then .nan else .inf) else .fin (qdiv x y)

/-- Absolute value `numpy.abs` on the three-valued domain. -/
def numpyAbs : NPVal → NPVal
  | .nan => .nan
  | .inf => .inf
  | .fin q => .fin (qabs q)

/-- NaN-propagating subtraction (`df[col] - roll_mean`). -/
def pqSub (a b : PQ) : PQ :=
  match a, b with
  | some x, some y => some (qsub x y)
  | _, _ => none

/-- The `{col}_zscore` column for one sensor temperature column: computed
only when the frame has at least 5 rows (`len(df) >= 5`, line 284),
otherwise absent (`none`). -/
def zscoreColumn (sqrtFn : ℚ → ℚ) (vals : List PQ) : Option (List NPVal) :=
  if 5 ≤ vals.length then
    some ((List.range vals.length).map fun i =>
      numpyAbs (numpyDiv
        (pqSub (vals.getD i none) (pandasMean (rollWindow vals i)))
        (replaceZeroNaN (pandasRollStd sqrtFn (rollWindow vals i)))))
  else none

/-! ## Latency-ms / `response_time_ms` block of `calculate_derived_metrics`
(lines 258-280)

```python
latency_cols = [col for col in df.columns
                if col.startswith("latency_") and not col.startswith("latency_ms_")]
if latency_cols:
    if "response_time_ms" not in df.columns:
        df["response_time_ms"] = 0.0
    for col in latency_cols:
        parts = col.split("_", 2)
        if len(parts) >= 3:
            ...
            if ms_col not in df.columns:
                df[ms_col] = df[col] * 1000
            mask = df[col].notna()
            df.loc[mask, "response_time_ms"] += df.loc[mask, col] * 1000
```
-/

/-- A raw latency column: `latency_*` but not `latency_ms_*`. -/
def isRawLatencyCol (n : String) : Bool :=
  strHasPre "latency_" n && !(strHasPre "latency_ms_" n)

/-- First occurrence of a separator character, with the pieces before and
after it. -/
def splitFirstChar (c : Char) : List Char → Option (List Char × List Char)
  | [] => none
  | x :: xs =>
    if x = c then some ([], xs)
    else (splitFirstChar c xs).map (fun p => (x :: p.1, p.2))

/-- Split on a separator character at most `n` times. -/
def splitMaxChar (c : Char) : Nat → List Char → List (List Char)
  | 0, cs => [cs]
  | n + 1, cs =>
    match splitFirstChar c cs with
    | none => [cs]
    | some (p, r) => p :: splitMaxChar c n r

/-- Python `col.split("_", 2)`. -/
def pySplit2 (s : String) : List String :=
  (splitMaxChar '_' 2 s.data).map List.asString

/-- One iteration of the `for col in latency_cols` loop: create the
`latency_ms_{endpoint}_{sensor}` column if absent, then add `col * 1000` to
`response_time_ms` on the rows where `col` is not NaN. -/
def latencyStep (acc : List NRow) (col : String) : List NRow :=
  let parts := pySplit2 col
  if 3 ≤ parts.length then
    let msCol := "latency_ms_" ++ parts.getD 1 "" ++ "_" ++ parts.getD 2 ""
    let acc1 :=
      if (allCols acc).contains msCol then acc
      else acc.map fun r =>
        setCell r msCol ((rowCell r col).map fun v => qmul v 1000)
    acc1.map fun r =>
      match rowCell r col with
      | some v =>
        setCell r "response_time_ms"
          ((rowCell r "response_time_ms").map fun q => qadd q (qmul v 1000))
      | none => r
  else acc

/-- The whole block: nothing happens without a raw latency column;
otherwise `response_time_ms` is created as 0.0 when absent and the columns
are folded in order. -/
def latencyMsBlock (rows : List NRow) : List NRow :=
  let lcols := (allCols rows).filter isRawLatencyCol
  if lcols.isEmpty then rows
  else
    let rows1 :=
      if (allCols rows).contains "response_time_ms" then rows
      else rows.map fun r => setCell r "response_time_ms" (some 0)
    lcols.foldl latencyStep rows1

/-- Invariant carried through the column loop: every row holds a non-NaN
`response_time_ms`, and a row whose raw latency cells are all NaN still
holds exactly 0. -/
def RespInv (rows : List NRow) : Prop :=
  ∀ r ∈ rows, ∃ q : ℚ, rowCell r "response_time_ms" = some q ∧
    ((∀ c : String, isRawLatencyCol c = true → rowCell r c = none) → q = 0)

/-- Witness table for C10: one row with a single raw latency column that is
NaN. -/
def c10rows : List NRow :=
  [⟨0, "baseline", "fault", 0, [("latency_temperature_S", none)]⟩]

/-! ## Value coercion of `extract_metrics` (lines 91-109)

```python
if isinstance(raw_value, list) and len(raw_value) > 1:
    try: value = float(raw_value[1])
    except (IndexError, ValueError): value = 0.0
elif isinstance(raw_value, list) and len(raw_value) == 1:
    try: value = float(raw_value[0])
    except (IndexError, ValueError): value = 0.0
else:
    try: value = float(raw_value)
    except (TypeError, ValueError): value = 0.0
```
The list branches catch `IndexError` (which `float` on an existing element
cannot raise) and `ValueError`, but *not* `TypeError` — `float(None)`,
`float([])`, `float({})` inside a list escape the handler.  The embedding
models the reachable exceptions (`TypeError`, `ValueError`) in an `Except`
monad; the unreachable `IndexError` in the catch lists is dropped. -/

/-- A JSON value as `json.loads` can produce it inside a metric entry. -/
inductive JVal
  | jnull
  | jbool (b : Bool)
  | jnum (q : ℚ)
  | jstr (s : String)
  | jarr (l : List JVal)
  | jobj (l : List (String × JVal))

/-- The Python exceptions reachable in the coercion. -/
inductive PyExc
  | typeError
  | valueError
deriving DecidableEq

/-- Decimal digits to a number; `none` on a non-digit. -/
def digitsToNat (cs : List Char) : Option Nat :=
  cs.foldl
    (fun acc c =>
      acc.bind fun n => if c.isDigit then some (n * 10 + (c.toNat - 48)) else none)
    (some 0)

/-- An unsigned decimal literal (`123`, `1.5`, `1.`, `.5`) as a rational;
`none` if the characters do not form one. -/
def parseUnsignedFloat (cs : List Char) : Option ℚ :=
  match splitFirstChar '.' cs with
  | none =>
    match digitsToNat cs, cs with
    | some n, _ :: _ => some (mkRat n 1)
    | _, _ => none
  | some (ip, fp) =>
    match digitsToNat ip, digitsToNat fp with
    | some a, some b =>
      if ip.isEmpty && fp.isEmpty then none
      else some (qadd (mkRat a 1) (qdiv (mkRat b 1) (mkRat (10 ^ fp.length) 1)))
    | _, _ => none

/-- CPython `float(str)` on the inputs this pipeline meets: an optional
sign followed by a decimal literal or the word `nan` (NaN).  Exponents,
surrounding whitespace, case variants and infinity words are outside the
modelled subset (none of the claims exercises them).  `none` is a parse
failure (`ValueError`), `some none` is NaN, `some (some q)` a finite
value. -/
def parsePyFloatCore (cs : List Char) : Option PQ :=
  if cs = "nan".data then some none
  else (parseUnsignedFloat cs).map some

def parsePyFloat (s : String) : Option PQ :=
  match s.data with
  | '+' :: rest => parsePyFloatCore rest
  | '-' :: rest => (parsePyFloatCore rest).map (fun v => v.map qneg)
  | cs => parsePyFloatCore cs

/-- CPython `float(x)` on a JSON value: numbers and booleans convert,
parsable strings convert, other strings raise `ValueError`, and `None`,
lists and dicts raise `TypeError`. -/
def pyFloatOf : JVal → Except PyExc PQ
  | .jnum q => .ok (some q)
  | .jbool b => .ok (some (if b then 1 else 0))
  | .jstr s =>
    match parsePyFloat s with
    | some v => .ok v
    | none => .error .valueError
  | .jnull => .error .typeError
  | .jarr _ => .error .typeError
  | .jobj _ => .error .typeError

/-- A `try/except` returning `0.0` for the caught exception classes. -/
def catchExc (allowed : List PyExc) (r : Except PyExc PQ) : Except PyExc PQ :=
  match r with
  | .ok v => .ok v
  | .error e => if e ∈ allowed then .ok (some 0) else .error e

/-- The value coercion of `extract_metrics`: the branch structure and the
per-branch catch sets of lines 94-109. -/
def extract_metrics_coerce (raw : JVal) : Except PyExc PQ :=
  match raw with
  | .jarr l =>
    if 1 < l.length then catchExc [.valueError] (pyFloatOf (l.getD 1 .jnull))
    else if l.length = 1 then catchExc [.valueError] (pyFloatOf (l.getD 0 .jnull))
    else catchExc [.typeError, .valueError] (pyFloatOf (.jarr l))
  | v => catchExc [.typeError, .valueError] (pyFloatOf v)

/-! ## In-place preprocessing of `analyze_impact` (lines 567-574)

```python
for col in df.columns:
    if col.endswith("_method"):
        df[col] = df[col].astype(str)
    elif col.startswith("latency_ms_") and not col.endswith("_estimated") \
            and not col.endswith("_method"):
        df[col] = pd.to_numeric(df[col], errors="coerce")
```
`analyze_impact` receives `df` and assigns columns on it directly, without
`df.copy()`: the caller's frame is the one rewritten.  The embedding maps a
table (column name, cells) to the state the caller observes after the call.
`calculate_derived_metrics`, by contrast, executes `df = df.copy()` as its
first statement (line 183) and every later write targets the copy, so its
caller-visible effect on the argument is the identity, embedded as
`derivedInputAfter`.  A cell is a float or a string; the exact digit string
CPython's `str()` produces for a float is irrelevant to every claim here
(only the float-to-string dtype change matters), so the embedding is
parametric in the float-repr function. -/

/-- One cell of a mixed-dtype column: a possibly-NaN float or a string. -/
inductive PCell
  | pnum (v : PQ)
  | pstr (s : String)
deriving DecidableEq

/-- A pandas frame for the mutation claim: column name with its cells. -/
abbrev STable := List (String × List PCell)

/-- Method-column test `col.endswith("_method")`. -/
def isMethodCol (n : String) : Bool := strHasSuf "_method" n

/-- A plain `latency_ms_*` value column (not its `_estimated`/`_method`
metadata). -/
def isPlainLatencyMsCol (n : String) : Bool :=
  strHasPre "latency_ms_" n && !(strHasSuf "_estimated" n) &&
    !(strHasSuf "_method" n)

/-- String cast `astype(str)` on one cell. -/
def astypeStrCell (reprFn : PQ → String) : PCell → PCell
  | .pnum v => .pstr (reprFn v)
  | .pstr s => .pstr s

/-- Numeric coercion `pd.to_numeric(-, errors="coerce")` on one cell: strings parse or
become NaN. -/
def toNumericCell : PCell → PCell
  | .pnum v => .pnum v
  | .pstr s => .pnum ((parsePyFloat s).getD none)

/-- The state of the caller's frame after the preprocessing loop of
`analyze_impact`. -/
def analyzeImpactPrep (reprFn : PQ → String) (t : STable) : STable :=
  t.map fun col =>
    if isMethodCol col.1 then (col.1, col.2.map (astypeStrCell reprFn))
    else if isPlainLatencyMsCol col.1 then (col.1, col.2.map toNumericCell)
    else col

/-- The state of the caller's frame after `calculate_derived_metrics`: the
function's first statement is `df = df.copy()` (line 183), so the argument
is untouched. -/
def derivedInputAfter (t : STable) : STable := t

/-! ## Theorems -/

theorem qadd_eq (a b : ℚ) : qadd a b = a + b := by
  rw [qadd, Rat.mkRat_eq_divInt]
  conv_rhs => rw [← Rat.num_divInt_den a, ← Rat.num_divInt_den b]
  rw [Rat.divInt_add_divInt] <;> simp [Rat.den_nz]

theorem qneg_eq (a : ℚ) : qneg a = -a := by
  rw [qneg, Rat.mkRat_eq_divInt, ← Rat.neg_divInt, Rat.num_divInt_den]

theorem qsub_eq (a b : ℚ) : qsub a b = a - b := by
  rw [qsub, qadd_eq, qneg_eq, sub_eq_add_neg]

theorem qmul_eq (a b : ℚ) : qmul a b = a * b := by
  rw [qmul, Rat.mkRat_eq_divInt]
  conv_rhs => rw [← Rat.num_divInt_den a, ← Rat.num_divInt_den b]
  rw [Rat.divInt_mul_divInt', Nat.cast_mul]

theorem qdiv_eq (a b : ℚ) : qdiv a b = a / b := by
  rw [qdiv]
  conv_rhs => rw [← Rat.num_divInt_den a, ← Rat.num_divInt_den b]
  rw [Rat.divInt_div_divInt]

theorem qle_iff (a b : ℚ) : qle a b = true ↔ a ≤ b := by
  rw [qle, decide_eq_true_iff]
  exact Rat.le_def.symm

theorem qlt_iff (a b : ℚ) : qlt a b = true ↔ a < b := by
  rw [qlt, decide_eq_true_iff]
  exact Rat.lt_def.symm

theorem qmax_eq (a b : ℚ) : qmax a b = max a b := by
  rw [qmax, max_def]
  by_cases h : a ≤ b
  · rw [if_pos ((qle_iff a b).2 h), if_pos h]
  · rw [if_neg (fun hc => h ((qle_iff a b).1 hc)), if_neg h]

theorem qabs_eq (a : ℚ) : qabs a = |a| := by
  rw [qabs]
  by_cases h : (0 : ℚ) ≤ a
  · rw [if_pos ((qle_iff 0 a).2 h), abs_of_nonneg h]
  · rw [if_neg (fun hc => h ((qle_iff 0 a).1 hc)), qneg_eq,
      abs_of_neg (lt_of_not_ge h)]

theorem qsum_eq (l : List ℚ) : qsum l = l.sum := by
  induction l with
  | nil => rfl
  | cons x xs ih => rw [qsum, List.foldr_cons, ← qsum, ih, qadd_eq, List.sum_cons]

/-- C2: the percent-change function returns NaN whenever the baseline is
0 or NaN (for every event value), and maps baseline 100, event 150 to exactly
50.0.  Totality of the Lean function mirrors the absence of any
divide-by-zero error path in the source (the zero/NaN guard precedes the
division). -/
theorem percent_increase_nan_guard_and_example :
    (∀ x : PQ, calculate_percent_increase (some 0) x = none ∧
      calculate_percent_increase none x = none) ∧
    calculate_percent_increase (some 100) (some 150) = some 50 := by
  refine ⟨fun x => ⟨?_, rfl⟩, ?_⟩
  · cases x <;> simp [calculate_percent_increase]
  · simp only [calculate_percent_increase, qmul_eq, qsub_eq, qdiv_eq]
    norm_num

theorem interpFormula_eq (target : ℚ) (p q : ℚ × ℚ) :
    interpFormula target p q =
      p.1 + ((target - p.2) / max 1 (q.2 - p.2)) * (q.1 - p.1) := by
  rw [interpFormula, qadd_eq, qmul_eq, qdiv_eq, qsub_eq, qsub_eq, qsub_eq, qmax_eq]

theorem bucketLE_of_boundLT {p q : EBound × ℚ} (h : boundLT p q) : bucketLE p q := by
  simp [bucketLE, boundLT] at *
  exact Or.inl h

/-- Sorting a bucket list already in strictly ascending bound order is the
identity. -/
theorem insertionSort_eq_of_sorted {l : List (EBound × ℚ)}
    (h : List.Pairwise boundLT l) : List.insertionSort bucketLE l = l :=
  List.Sorted.insertionSort_eq (h.imp bucketLE_of_boundLT)

/-- Strictly ascending bucket bounds stay strictly ascending on the finite
sublist. -/
theorem finiteBuckets_pairwise {l : List (EBound × ℚ)}
    (h : List.Pairwise boundLT l) :
    List.Pairwise (fun p q : ℚ × ℚ => p.1 < q.1) (finiteBuckets l) := by
  refine List.Pairwise.filterMap _ ?_ h
  rintro ⟨a, ca⟩ ⟨b, cb⟩ hab x hx y hy
  cases a <;> cases b <;> simp_all [boundLT, EBound.ltB]
  subst hx hy
  exact (qlt_iff _ _).1 hab

/-- The interpolation scan stops at the first satisfying adjacent pair. -/
theorem interpScan_eq_first (t : ℚ) :
    ∀ (ni : List (ℚ × ℚ)) (i : Nat), i + 1 < ni.length →
      (qle (ni.getD i (0, 0)).2 t && qle t (ni.getD (i + 1) (0, 0)).2) = true →
      (∀ j, j < i →
        (qle (ni.getD j (0, 0)).2 t && qle t (ni.getD (j + 1) (0, 0)).2) = false) →
      interpScan t ni = some (interpFormula t (ni.getD i (0, 0)) (ni.getD (i + 1) (0, 0)))
  | [], i, hi, _, _ => by simp at hi
  | [x], i, hi, _, _ => by simp only [List.length_singleton] at hi; omega
  | x :: y :: rest, 0, _, hsat, _ => by
    obtain ⟨b1, c1⟩ := x
    obtain ⟨b2, c2⟩ := y
    simp only [List.getD_cons_zero, List.getD_cons_succ] at hsat ⊢
    rw [interpScan, if_pos hsat]
  | x :: y :: rest, i + 1, hi, hsat, hfirst => by
    obtain ⟨b1, c1⟩ := x
    obtain ⟨b2, c2⟩ := y
    have h0 := hfirst 0 (Nat.succ_pos i)
    simp only [List.getD_cons_zero, List.getD_cons_succ] at h0
    rw [interpScan, if_neg (by simp [h0])]
    simp only [List.getD_cons_succ]
    exact interpScan_eq_first t ((b2, c2) :: rest) i
      (by simp only [List.length_cons] at hi ⊢; omega)
      (by simpa only [List.getD_cons_succ] using hsat)
      (fun j hj => by
        simpa only [List.getD_cons_succ] using hfirst (j + 1) (by omega))

/-- If the scan produces a value, some adjacent finite-bucket pair brackets
the target count (non-strictly). -/
theorem interpScan_some_sat (t : ℚ) :
    ∀ (ni : List (ℚ × ℚ)) (v : ℚ), interpScan t ni = some v →
      ∃ i, i + 1 < ni.length ∧ (ni.getD i (0, 0)).2 ≤ t ∧ t ≤ (ni.getD (i + 1) (0, 0)).2
  | [], v, h => by simp [interpScan] at h
  | [x], v, h => by simp [interpScan] at h
  | x :: y :: rest, v, h => by
    obtain ⟨b1, c1⟩ := x
    obtain ⟨b2, c2⟩ := y
    rw [interpScan] at h
    by_cases hc : (qle c1 t && qle t c2) = true
    · rw [Bool.and_eq_true] at hc
      refine ⟨0, by simp, ?_, ?_⟩
      · simpa using (qle_iff _ _).1 hc.1
      · simpa using (qle_iff _ _).1 hc.2
    · rw [if_neg hc] at h
      obtain ⟨i, hi, h1, h2⟩ := interpScan_some_sat t ((b2, c2) :: rest) v h
      exact ⟨i + 1, by simpa using hi, by simpa using h1, by simpa using h2⟩

/-- In a list of finite buckets with strictly ascending bounds, the first
bound is at most the last bound (whatever the defaults). -/
theorem headD_le_getLastD :
    ∀ (l : List (ℚ × ℚ)) (d : ℚ × ℚ),
      List.Pairwise (fun p q : ℚ × ℚ => p.1 < q.1) l →
      l ≠ [] → (l.headD d).1 ≤ (l.getLastD d).1
  | [], _, _, h => absurd rfl h
  | [x], _, _, _ => le_refl _
  | x :: y :: rest, d, hp, _ => by
    have h1 : x.1 < y.1 := (List.pairwise_cons.1 hp).1 y (by simp)
    have h2 := headD_le_getLastD (y :: rest) x (List.pairwise_cons.1 hp).2 (by simp)
    simp only [List.headD_cons] at h2 ⊢
    rw [List.getLastD_cons]
    exact le_trans (le_of_lt h1) h2

/-- A value produced by the interpolation scan lies between the first and
the last finite bucket bound. -/
theorem interpScan_range (t : ℚ) :
    ∀ (ni : List (ℚ × ℚ)) (v : ℚ) (d : ℚ × ℚ),
      List.Pairwise (fun p q : ℚ × ℚ => p.1 < q.1) ni →
      interpScan t ni = some v →
      (ni.headD d).1 ≤ v ∧ v ≤ (ni.getLastD d).1
  | [], v, d, _, h => by simp [interpScan] at h
  | [x], v, d, _, h => by simp [interpScan] at h
  | x :: y :: rest, v, d, hp, h => by
    obtain ⟨b1, c1⟩ := x
    obtain ⟨b2, c2⟩ := y
    have hb12 : b1 < b2 := (List.pairwise_cons.1 hp).1 (b2, c2) (by simp)
    rw [interpScan] at h
    by_cases hc : (qle c1 t && qle t c2) = true
    · rw [if_pos hc] at h
      rw [Bool.and_eq_true] at hc
      obtain ⟨hc1, hc2⟩ := hc
      have h1 : c1 ≤ t := (qle_iff _ _).1 hc1
      have h2 : t ≤ c2 := (qle_iff _ _).1 hc2
      have hv : v = b1 + ((t - c1) / max 1 (c2 - c1)) * (b2 - b1) := by
        rw [← Option.some.inj h, interpFormula_eq]
      have hM : (0 : ℚ) < max 1 (c2 - c1) := lt_of_lt_of_le one_pos (le_max_left _ _)
      have hfrac0 : 0 ≤ (t - c1) / max 1 (c2 - c1) :=
        div_nonneg (by linarith) (le_of_lt hM)
      have hfrac1 : (t - c1) / max 1 (c2 - c1) ≤ 1 := by
        rw [div_le_one hM]
        exact le_trans (by linarith) (le_max_right _ _)
      have hmul0 : 0 ≤ ((t - c1) / max 1 (c2 - c1)) * (b2 - b1) :=
        mul_nonneg hfrac0 (by linarith)
      have hmul1 : ((t - c1) / max 1 (c2 - c1)) * (b2 - b1) ≤ 1 * (b2 - b1) :=
        mul_le_mul_of_nonneg_right hfrac1 (by linarith)
      constructor
      · simp only [List.headD_cons]
        linarith
      · have hlast := headD_le_getLastD ((b2, c2) :: rest) (b1, c1)
          (List.pairwise_cons.1 hp).2 (by simp)
        simp only [List.headD_cons] at hlast
        rw [List.getLastD_cons]
        linarith
    · rw [if_neg hc] at h
      have ih := interpScan_range t ((b2, c2) :: rest) v (b1, c1)
        (List.pairwise_cons.1 hp).2 h
      constructor
      · simp only [List.headD_cons] at ih ⊢
        linarith [ih.1]
      · rw [List.getLastD_cons]
        exact ih.2

theorem target_eq (x : ℚ) : qmul x (mkRat 95 100) = x * (95 / 100) := by
  rw [qmul_eq, Rat.mkRat_eq_divInt, Rat.divInt_eq_div]
  norm_num

/-- Branch reduction: with sorted input, at least two finite buckets and a
positive total count, the estimator reaches the interpolation scan. -/
theorem processBuckets_branch (l : List (EBound × ℚ))
    (hsorted : List.Pairwise boundLT l)
    (h2 : 2 ≤ (finiteBuckets l).length)
    (hpos : qlt 0 (infCountOf l (finiteBuckets l)) = true) :
    processBuckets l =
      match interpScan (qmul (infCountOf l (finiteBuckets l)) (mkRat 95 100))
          (finiteBuckets l) with
      | some est => ⟨some (qmul est 1000), false, "interpolation"⟩
      | none =>
        ⟨some (qmul ((finiteBuckets l).getLastD (0, 0)).1 1000), true,
          "highest_bucket"⟩ := by
  have hlen : 2 ≤ l.length := le_trans h2 (List.length_filterMap_le _ l)
  have hne : l.isEmpty = false := by
    cases l with
    | nil => simp at hlen
    | cons a t => rfl
  rw [processBuckets, insertionSort_eq_of_sorted hsorted, pbAfterSort.eq_def, hne]
  simp only [Bool.false_eq_true, if_false]
  rw [if_pos hlen, if_pos h2, if_pos hpos]

theorem processBuckets_interp (l : List (EBound × ℚ))
    (hsorted : List.Pairwise boundLT l)
    (h2 : 2 ≤ (finiteBuckets l).length)
    (hpos : qlt 0 (infCountOf l (finiteBuckets l)) = true)
    (est : ℚ)
    (hscan : interpScan (qmul (infCountOf l (finiteBuckets l)) (mkRat 95 100))
      (finiteBuckets l) = some est) :
    processBuckets l = ⟨some (qmul est 1000), false, "interpolation"⟩ := by
  rw [processBuckets_branch l hsorted h2 hpos, hscan]

theorem processBuckets_highest (l : List (EBound × ℚ))
    (hsorted : List.Pairwise boundLT l)
    (h2 : 2 ≤ (finiteBuckets l).length)
    (hpos : qlt 0 (infCountOf l (finiteBuckets l)) = true)
    (hscan : interpScan (qmul (infCountOf l (finiteBuckets l)) (mkRat 95 100))
      (finiteBuckets l) = none) :
    processBuckets l =
      ⟨some (qmul ((finiteBuckets l).getLastD (0, 0)).1 1000), true,
        "highest_bucket"⟩ := by
  rw [processBuckets_branch l hsorted h2 hpos, hscan]

/-- C5 (amended): with at least two finite-bound buckets and a positive
total count, the estimate (before milliseconds conversion) lies between the
smallest and the largest finite bucket bound, and `is_estimated` is `false`
only when the target count `total * 0.95` falls non-strictly between two
adjacent finite bucket counts (the source's test is
`current_count <= target <= next_count`, not a strict one). -/
theorem estimator_range_and_flag (l : List (EBound × ℚ))
    (hsorted : List.Pairwise boundLT l)
    (h2 : 2 ≤ (finiteBuckets l).length)
    (hpos : qlt 0 (infCountOf l (finiteBuckets l)) = true) :
    (∃ q : ℚ, (processBuckets l).value = some (q * 1000) ∧
      ((finiteBuckets l).headD (0, 0)).1 ≤ q ∧
      q ≤ ((finiteBuckets l).getLastD (0, 0)).1) ∧
    ((processBuckets l).is_estimated = false →
      ∃ i, i + 1 < (finiteBuckets l).length ∧
        ((finiteBuckets l).getD i (0, 0)).2 ≤
          infCountOf l (finiteBuckets l) * (95 / 100) ∧
        infCountOf l (finiteBuckets l) * (95 / 100) ≤
          ((finiteBuckets l).getD (i + 1) (0, 0)).2) := by
  have hpw := finiteBuckets_pairwise hsorted
  have hne : finiteBuckets l ≠ [] := by
    intro h0
    rw [h0] at h2
    simp at h2
  cases hscan : interpScan (qmul (infCountOf l (finiteBuckets l)) (mkRat 95 100))
      (finiteBuckets l) with
  | some est =>
    rw [processBuckets_interp l hsorted h2 hpos est hscan]
    have hrange := interpScan_range _ (finiteBuckets l) est (0, 0) hpw hscan
    refine ⟨⟨est, ?_, hrange.1, hrange.2⟩, ?_⟩
    · exact congrArg some (qmul_eq est 1000)
    · intro _
      obtain ⟨i, hi, hs1, hs2⟩ := interpScan_some_sat _ (finiteBuckets l) est hscan
      rw [target_eq] at hs1 hs2
      exact ⟨i, hi, hs1, hs2⟩
  | none =>
    rw [processBuckets_highest l hsorted h2 hpos hscan]
    refine ⟨⟨((finiteBuckets l).getLastD (0, 0)).1, ?_, ?_, le_refl _⟩, ?_⟩
    · exact congrArg some (qmul_eq _ 1000)
    · exact headD_le_getLastD (finiteBuckets l) (0, 0) hpw hne
    · intro hfalse
      simp at hfalse

/-- C4 (amended): with at least two finite buckets, a positive total
count, and `i` the first adjacent finite-bucket pair whose counts bracket
the target non-strictly, the estimator interpolates at pair `i` with the
source's guarded denominator `max(1, count_{i+1} - count_i)` (not the raw
count difference the claim states), converts to milliseconds, and marks the
result `interpolation`, not estimated. -/
theorem estimator_interpolation_first_pair (l : List (EBound × ℚ)) (i : Nat)
    (hsorted : List.Pairwise boundLT l)
    (h2 : 2 ≤ (finiteBuckets l).length)
    (hpos : qlt 0 (infCountOf l (finiteBuckets l)) = true)
    (hi : i + 1 < (finiteBuckets l).length)
    (hsat : ((finiteBuckets l).getD i (0, 0)).2 ≤
        infCountOf l (finiteBuckets l) * (95 / 100) ∧
      infCountOf l (finiteBuckets l) * (95 / 100) ≤
        ((finiteBuckets l).getD (i + 1) (0, 0)).2)
    (hfirst : ∀ j, j < i →
      ¬(((finiteBuckets l).getD j (0, 0)).2 ≤
          infCountOf l (finiteBuckets l) * (95 / 100) ∧
        infCountOf l (finiteBuckets l) * (95 / 100) ≤
          ((finiteBuckets l).getD (j + 1) (0, 0)).2)) :
    processBuckets l =
      ⟨some ((((finiteBuckets l).getD i (0, 0)).1 +
          ((infCountOf l (finiteBuckets l) * (95 / 100) -
              ((finiteBuckets l).getD i (0, 0)).2) /
            max 1 (((finiteBuckets l).getD (i + 1) (0, 0)).2 -
              ((finiteBuckets l).getD i (0, 0)).2)) *
          (((finiteBuckets l).getD (i + 1) (0, 0)).1 -
            ((finiteBuckets l).getD i (0, 0)).1)) * 1000),
        false, "interpolation"⟩ := by
  have htq := target_eq (infCountOf l (finiteBuckets l))
  have hsatB : (qle ((finiteBuckets l).getD i (0, 0)).2
      (qmul (infCountOf l (finiteBuckets l)) (mkRat 95 100)) &&
      qle (qmul (infCountOf l (finiteBuckets l)) (mkRat 95 100))
        ((finiteBuckets l).getD (i + 1) (0, 0)).2) = true := by
    rw [Bool.and_eq_true, qle_iff, qle_iff, htq]
    exact hsat
  have hfirstB : ∀ j, j < i →
      (qle ((finiteBuckets l).getD j (0, 0)).2
        (qmul (infCountOf l (finiteBuckets l)) (mkRat 95 100)) &&
        qle (qmul (infCountOf l (finiteBuckets l)) (mkRat 95 100))
          ((finiteBuckets l).getD (j + 1) (0, 0)).2) = false := by
    intro j hj
    rw [Bool.eq_false_iff]
    intro hcontra
    rw [Bool.and_eq_true, qle_iff, qle_iff, htq] at hcontra
    exact hfirst j hj hcontra
  have hscan := interpScan_eq_first _ (finiteBuckets l) i hi hsatB hfirstB
  rw [processBuckets_interp l hsorted h2 hpos _ hscan, interpFormula_eq, htq,
    qmul_eq]

/-- C3 (amended): a bucket set consisting of exactly one bucket yields
`single_bucket` (bound in ms) when that bucket is finite and
`only_inf_bucket` (NaN) when it is the `+∞` bucket; but a set with one
finite bucket *plus* the `+∞` bucket has two buckets and fewer than two
finite ones, and falls into the `insufficient_buckets` branch (NaN,
estimated) — not `single_bucket` as the claim states. -/
theorem estimator_few_finite_buckets (b c c1 c2 : ℚ) :
    processBuckets [(EBound.fin b, c)] =
      ⟨some (b * 1000), true, "single_bucket"⟩ ∧
    processBuckets [(EBound.inf, c)] = ⟨none, true, "only_inf_bucket"⟩ ∧
    processBuckets [(EBound.fin b, c1), (EBound.inf, c2)] =
      ⟨none, true, "insufficient_buckets"⟩ ∧
    processBuckets [(EBound.inf, c2), (EBound.fin b, c1)] =
      ⟨none, true, "insufficient_buckets"⟩ := by
  refine ⟨?_, ?_, ?_, ?_⟩ <;>
    simp [processBuckets, pbAfterSort, List.insertionSort, List.orderedInsert,
      bucketLE, EBound.ltB, finiteBuckets, qmul_eq]

/-- C3 counterexample: the bucket set `{0.5: 3, inf: 5}` has exactly one
finite-bound bucket, yet the estimator returns `insufficient_buckets` with a
NaN value, not `single_bucket` with the bound in ms. -/
theorem estimator_single_finite_plus_inf_counterexample :
    (processBuckets [(EBound.fin (mkRat 1 2), 3), (EBound.inf, 5)]).method ≠
      "single_bucket" ∧
    (processBuckets [(EBound.fin (mkRat 1 2), 3), (EBound.inf, 5)]).method =
      "insufficient_buckets" ∧
    (processBuckets [(EBound.fin (mkRat 1 2), 3), (EBound.inf, 5)]).value = none := by
  refine ⟨?_, by decide, by decide⟩
  decide

/-- C4 counterexample: buckets `{1: 0, 2: 0.5}` (no `+∞` bucket, so the
total is the last finite count 0.5, target `0.475`).  The first pair
brackets the target, but the source divides by `max(1, 0.5 - 0) = 1`, so the
value is `(1 + 0.475) * 1000 = 1475` ms — not the
`(1 + 0.475/0.5) * 1000 = 1950` ms the claim's formula
`(target - count_i)/(count_{i+1} - count_i)` prescribes. -/
theorem estimator_interpolation_counterexample :
    (processBuckets [(EBound.fin 1, 0), (EBound.fin 2, mkRat 1 2)]).value =
      some 1475 ∧
    (processBuckets [(EBound.fin 1, 0), (EBound.fin 2, mkRat 1 2)]).value ≠
      some ((1 + ((mkRat 1 2 * (95 / 100) - 0) / (mkRat 1 2 - 0)) * (2 - 1)) * 1000) := by
  have h1 : (processBuckets [(EBound.fin 1, 0), (EBound.fin 2, mkRat 1 2)]).value =
      some 1475 := by decide
  refine ⟨h1, ?_⟩
  rw [h1]
  have h2 : mkRat 1 2 = (1 : ℚ) / 2 := by
    rw [Rat.mkRat_eq_divInt, Rat.divInt_eq_div]
    norm_num
  rw [h2]
  simp only [ne_eq, Option.some.injEq]
  norm_num

/-- Witness for the amended C4 at a concrete input: interpolation at the
first pair gives `(1 + (95 - 90)/max 1 (100 - 90) * (2 - 1)) * 1000 = 1500`. -/
theorem estimator_interpolation_first_pair_witness :
    processBuckets c4input = ⟨some 1500, false, "interpolation"⟩ := by
  have e1 : finiteBuckets c4input = [(1, 90), (2, 100)] := by decide
  have e2 : infCountOf c4input (finiteBuckets c4input) = 100 := by decide
  have g0 : ((finiteBuckets c4input).getD 0 (0, 0)) = (1, 90) := by decide
  have g1 : ((finiteBuckets c4input).getD 1 (0, 0)) = (2, 100) := by decide
  have h := estimator_interpolation_first_pair c4input 0 (by decide) (by decide)
    (by decide) (by decide)
    (by rw [e2, g0, g1]; constructor <;> norm_num)
    (fun j hj => absurd hj (Nat.not_lt_zero j))
  rw [h, e2, g0, g1]
  have hmax : max (1 : ℚ) ((2, 100).2 - (1, 90).2) = 10 := by norm_num
  rw [hmax]
  norm_num

/-- Witness for the amended C5 at a concrete input: buckets
`{1: 10, 2: 90, inf: 100}` satisfy the hypotheses (two finite buckets,
positive total), so the conclusion holds there. -/
theorem estimator_range_and_flag_witness :
    (2 ≤ (finiteBuckets [(EBound.fin 1, 10), (EBound.fin 2, 90), (EBound.inf, 100)]).length) ∧
    ((∃ q : ℚ,
      (processBuckets [(EBound.fin 1, 10), (EBound.fin 2, 90), (EBound.inf, 100)]).value =
        some (q * 1000) ∧
      ((finiteBuckets [(EBound.fin 1, 10), (EBound.fin 2, 90), (EBound.inf, 100)]).headD (0, 0)).1 ≤ q ∧
      q ≤ ((finiteBuckets [(EBound.fin 1, 10), (EBound.fin 2, 90), (EBound.inf, 100)]).getLastD (0, 0)).1) ∧
    ((processBuckets [(EBound.fin 1, 10), (EBound.fin 2, 90), (EBound.inf, 100)]).is_estimated = false →
      ∃ i, i + 1 <
          (finiteBuckets [(EBound.fin 1, 10), (EBound.fin 2, 90), (EBound.inf, 100)]).length ∧
        ((finiteBuckets [(EBound.fin 1, 10), (EBound.fin 2, 90), (EBound.inf, 100)]).getD i (0, 0)).2 ≤
          infCountOf [(EBound.fin 1, 10), (EBound.fin 2, 90), (EBound.inf, 100)]
            (finiteBuckets [(EBound.fin 1, 10), (EBound.fin 2, 90), (EBound.inf, 100)]) * (95 / 100) ∧
        infCountOf [(EBound.fin 1, 10), (EBound.fin 2, 90), (EBound.inf, 100)]
            (finiteBuckets [(EBound.fin 1, 10), (EBound.fin 2, 90), (EBound.inf, 100)]) * (95 / 100) ≤
          ((finiteBuckets [(EBound.fin 1, 10), (EBound.fin 2, 90), (EBound.inf, 100)]).getD (i + 1) (0, 0)).2)) :=
  ⟨by decide,
    estimator_range_and_flag [(EBound.fin 1, 10), (EBound.fin 2, 90), (EBound.inf, 100)]
      (by decide) (by decide) (by decide)⟩

/-- C5 counterexample: buckets `{1: 38, 2: 40}` (total 40, target 38).
The target equals the first count, so it is *not* strictly between any two
adjacent finite counts, yet the estimator interpolates with
`is_estimated = false` — the source's bracket test is non-strict. -/
theorem estimator_flag_strictness_counterexample :
    (processBuckets [(EBound.fin 1, 38), (EBound.fin 2, 40)]).is_estimated = false ∧
    targetStrictlyInside
      (qmul (infCountOf [(EBound.fin 1, 38), (EBound.fin 2, 40)]
          (finiteBuckets [(EBound.fin 1, 38), (EBound.fin 2, 40)]))
        (mkRat 95 100))
      (finiteBuckets [(EBound.fin 1, 38), (EBound.fin 2, 40)]) = false := by
  refine ⟨by decide, by decide⟩

theorem filterMap_id_of_all_some (c : ℚ) :
    ∀ vs : List PQ, (∀ v ∈ vs, v = some c) →
      vs.filterMap id = List.replicate vs.length c
  | [], _ => rfl
  | v :: vs, h => by
    have hv : v = some c := h v (by simp)
    subst hv
    simp only [List.filterMap_cons, id, List.length_cons, List.replicate_succ]
    exact congrArg _ (filterMap_id_of_all_some c vs fun w hw => h w (by simp [hw]))

/-- A pandas mean over a nonempty constant column is that constant. -/
theorem pandasMean_const (c : ℚ) (vs : List PQ)
    (h : ∀ v ∈ vs, v = some c) (hne : vs ≠ []) : pandasMean vs = some c := by
  have hfm := filterMap_id_of_all_some c vs h
  have hlen : vs.length ≠ 0 := fun h0 => hne (List.length_eq_zero.1 h0)
  rw [pandasMean, hfm]
  have hemp : (List.replicate vs.length c).isEmpty = false := by
    cases hv : vs.length with
    | zero => exact absurd hv hlen
    | succ n => rfl
  rw [hemp]
  simp only [Bool.false_eq_true, if_false, Option.some.injEq]
  rw [qsum_eq, qdiv_eq, List.sum_replicate, List.length_replicate, nsmul_eq_mul,
    Rat.mkRat_one]
  push_cast
  rw [mul_div_cancel_left₀ c (by exact_mod_cast hlen)]

theorem npMean_singleton (c : ℚ) : npMean [some c] = some c := by
  simp [npMean, qsum, qadd_eq, qdiv_eq]

theorem impact_cpu_counterexample :
    impactCpuIncrease c1rows "dos" ≠ some (some 200) ∧
    impactCpuIncrease c1rows "dos" = some (some 300) := by
  refine ⟨?_, by decide⟩
  decide

/-- C1 (amended): a dataset whose baseline-phase rows hold `cpu_X = 10`
constant and whose event-phase rows hold `cpu_X = 40` constant (each phase
nonempty, `cpu_X` the only cpu column) produces an impact record with
`cpu_increase_percent = 300.0` — the percent-change formula
`(event/baseline - 1) * 100` gives 300 for 10 → 40, not 200. -/
theorem impact_cpu_increase_amended (rows : List NRow) (fault : String)
    (hcols : cpuCols rows = ["cpu_X"])
    (hb : phaseRows rows fault "baseline" ≠ [])
    (he : phaseRows rows fault "event" ≠ [])
    (hbv : ∀ r ∈ phaseRows rows fault "baseline", rowCell r "cpu_X" = some 10)
    (hev : ∀ r ∈ phaseRows rows fault "event", rowCell r "cpu_X" = some 40) :
    impactCpuIncrease rows fault = some (some 300) := by
  have hbe : (phaseRows rows fault "baseline").isEmpty = false := by
    cases hc : phaseRows rows fault "baseline" with
    | nil => exact absurd hc hb
    | cons a t => rfl
  have hee : (phaseRows rows fault "event").isEmpty = false := by
    cases hc : phaseRows rows fault "event" with
    | nil => exact absurd hc he
    | cons a t => rfl
  have hmb : pandasMean ((phaseRows rows fault "baseline").map
      (fun r => rowCell r "cpu_X")) = some 10 := by
    refine pandasMean_const 10 _ ?_ ?_
    · intro v hv
      obtain ⟨r, hr, hrv⟩ := List.mem_map.1 hv
      rw [← hrv]
      exact hbv r hr
    · simp only [ne_eq, List.map_eq_nil_iff]
      exact hb
  have hme : pandasMean ((phaseRows rows fault "event").map
      (fun r => rowCell r "cpu_X")) = some 40 := by
    refine pandasMean_const 40 _ ?_ ?_
    · intro v hv
      obtain ⟨r, hr, hrv⟩ := List.mem_map.1 hv
      rw [← hrv]
      exact hev r hr
    · simp only [ne_eq, List.map_eq_nil_iff]
      exact he
  rw [impactCpuIncrease, hbe, hee]
  simp only [Bool.or_self, Bool.false_eq_true, if_false]
  rw [hcols]
  simp only [avgCpuOf, List.map_cons, List.map_nil, hmb, hme,
    npMean_singleton]
  rw [calculate_percent_increase]
  simp only [OfNat.ofNat_ne_zero, if_false]
  rw [qmul_eq, qsub_eq, qdiv_eq]
  norm_num

theorem impact_cpu_increase_amended_witness :
    impactCpuIncrease c1wrows "exhaustion" = some (some 300) :=
  impact_cpu_increase_amended c1wrows "exhaustion" (by decide) (by decide)
    (by decide) (by decide) (by decide)

theorem self_cons_mem_insertEverywhere (x : α) (l : List α) :
    x :: l ∈ insertEverywhere x l := by
  cases l <;> simp [insertEverywhere]

theorem mem_insertEverywhere_of_mem [DecidableEq α] (x : α) :
    ∀ l : List α, x ∈ l → l ∈ insertEverywhere x (l.erase x)
  | y :: ys, h => by
    by_cases hxy : x = y
    · subst hxy
      rw [List.erase_cons_head]
      exact self_cons_mem_insertEverywhere _ _
    · rw [List.erase_cons_tail (by simpa using Ne.symm hxy)]
      have hx : x ∈ ys := by
        cases List.mem_cons.1 h with
        | inl h0 => exact absurd h0 hxy
        | inr h0 => exact h0
      have ih := mem_insertEverywhere_of_mem x ys hx
      exact List.mem_cons.2 (Or.inr (List.mem_map_of_mem (y :: ·) ih))

/-- Completeness of `permsOf`: it contains every permutation. -/
theorem mem_permsOf_of_perm [DecidableEq α] :
    ∀ (base l : List α), l.Perm base → l ∈ permsOf base
  | [], l, h => by
    rw [List.perm_nil.1 h]
    exact List.mem_singleton.2 rfl
  | x :: xs, l, h => by
    have hx : x ∈ l := h.symm.subset (List.mem_cons_self x xs)
    have h2 : (l.erase x).Perm xs := by
      have := h.erase x
      rwa [List.erase_cons_head] at this
    have ih := mem_permsOf_of_perm xs (l.erase x) h2
    rw [permsOf]
    exact List.mem_flatMap.2
      ⟨l.erase x, ih, mem_insertEverywhere_of_mem x l hx⟩

/-- C7: whatever the input order of the four rows with timestamps
0, 5, 10, 17 (one phase), the derived `reporting_interval_X` column reads
NaN, 5, 5, 7 in timestamp order, each value stored on the row with the
matching original row identity. -/
theorem reporting_interval_identity_aligned :
    ∀ l : List NRow, l.Perm c7rows →
      ∀ r ∈ reportingIntervalBlockForSensor l "X",
        rowCell r "reporting_interval_X" = c7expected r.rid := by
  have hall : ∀ l ∈ permsOf c7rows,
      ∀ r ∈ reportingIntervalBlockForSensor l "X",
        rowCell r "reporting_interval_X" = c7expected r.rid := by decide
  exact fun l hp => hall l (mem_permsOf_of_perm c7rows l hp)

/-- Witness: the identity ordering is one of the permutations; its first
row (index 0, timestamp 0) receives NaN. -/
theorem reporting_interval_identity_aligned_witness :
    rowCell
      ((reportingIntervalBlockForSensor c7rows "X").headD
        ⟨99, "", "", 0, []⟩)
      "reporting_interval_X" =
    c7expected
      ((reportingIntervalBlockForSensor c7rows "X").headD
        ⟨99, "", "", 0, []⟩).rid :=
  reporting_interval_identity_aligned c7rows (List.Perm.refl c7rows) _ (by decide)

theorem sampleVar_replicate (c : ℚ) (K : Nat) (hK : 1 ≤ K) :
    sampleVar (List.replicate K c) = 0 := by
  have hKne : (K : ℚ) ≠ 0 := by
    exact_mod_cast Nat.one_le_iff_ne_zero.1 hK
  have hm : qdiv (qsum (List.replicate K c)) (mkRat (List.replicate K c).length 1) = c := by
    rw [qsum_eq, List.sum_replicate, qdiv_eq, List.length_replicate, nsmul_eq_mul,
      Rat.mkRat_one]
    push_cast
    rw [mul_div_cancel_left₀ c hKne]
  rw [sampleVar, List.map_replicate, hm]
  have hz : qmul (qsub c c) (qsub c c) = 0 := by
    rw [qmul_eq, qsub_eq, sub_self, mul_zero]
  rw [hz, qsum_eq, List.sum_replicate, smul_zero, qdiv_eq, zero_div]

/-- One z-score entry over a constant window of at least one observation is
NaN: with two or more observations the rolling std is 0 and `.replace`
turns it into NaN; with one observation the sample std is already NaN. -/
theorem zscore_entry_const (sqrtFn : ℚ → ℚ) (hsqrt : sqrtFn 0 = 0) (c : ℚ)
    (K : Nat) (hK : 1 ≤ K) :
    numpyAbs (numpyDiv
      (pqSub (some c) (pandasMean (List.replicate K (some c))))
      (replaceZeroNaN (pandasRollStd sqrtFn (List.replicate K (some c))))) =
    NPVal.nan := by
  have hfm : (List.replicate K (some c)).filterMap id = List.replicate K c := by
    rw [filterMap_id_of_all_some c _ (fun v hv => List.eq_of_mem_replicate hv),
      List.length_replicate]
  have hmean : pandasMean (List.replicate K (some c)) = some c :=
    pandasMean_const c _ (fun v hv => List.eq_of_mem_replicate hv)
      (by
        intro h0
        have := congrArg List.length h0
        simp only [List.length_replicate, List.length_nil] at this
        omega)
  rw [hmean]
  rcases Nat.lt_or_ge K 2 with h1 | h2
  · have hK1 : K = 1 := by omega
    subst hK1
    rw [pandasRollStd]
    simp only [hfm, List.length_replicate]
    norm_num [replaceZeroNaN, pqSub, numpyDiv, numpyAbs]
  · rw [pandasRollStd]
    simp only [hfm, List.length_replicate, if_pos h2]
    rw [sampleVar_replicate c K hK, hsqrt, replaceZeroNaN]
    simp only [if_pos rfl]
    rfl

/-- C8: over a table of at least 5 rows whose sensor temperature column
is constant, the rolling z-score is NaN on every row: never an infinity and
never a division error (the zero rolling std is replaced by NaN before the
division, and every entry of the resulting column is the NaN of the
three-valued `numpy` domain). -/
theorem rolling_zscore_constant_nan (sqrtFn : ℚ → ℚ) (c : ℚ) (n : Nat)
    (hn : 5 ≤ n) (hsqrt : sqrtFn 0 = 0) :
    zscoreColumn sqrtFn (List.replicate n (some c)) =
      some (List.replicate n NPVal.nan) := by
  rw [zscoreColumn, List.length_replicate, if_pos hn]
  refine congrArg some (List.eq_replicate_iff.2 ⟨by simp, ?_⟩)
  intro b hb
  obtain ⟨i, hi, rfl⟩ := List.mem_map.1 hb
  have hilt : i < n := List.mem_range.1 hi
  have hgd : (List.replicate n (some c)).getD i none = some c := by
    rw [List.getD_eq_getElem?_getD, List.getElem?_replicate, if_pos hilt]
    rfl
  have hw : rollWindow (List.replicate n (some c)) i =
      List.replicate (min 5 (i + 1)) (some c) := by
    rw [rollWindow, List.take_replicate, List.drop_replicate]
    congr 1
    omega
  rw [hgd, hw]
  exact zscore_entry_const sqrtFn hsqrt c (min 5 (i + 1)) (by omega)

/-- Witness for C8 at a concrete input: a constant column of five
readings 20 and the square-root function that the claims constrain only at
0 (instantiated as the constant-zero function). -/
theorem rolling_zscore_constant_nan_witness :
    zscoreColumn (fun _ => 0) (List.replicate 5 (some (20 : ℚ))) =
      some (List.replicate 5 NPVal.nan) :=
  rolling_zscore_constant_nan (fun _ => 0) 20 5 (by decide) rfl

theorem lookup_filter_ne (m n : String) :
    ∀ l : List (String × PQ), m ≠ n →
      List.lookup m (l.filter fun c => !(c.1 == n)) = List.lookup m l
  | [], _ => rfl
  | c :: t, h => by
    by_cases hc : c.1 = n
    · have hfilter : (!(c.1 == n)) = false := by simp [hc]
      have hline : (m == c.1) = false := by
        rw [hc]
        exact beq_eq_false_iff_ne.mpr h
      rw [List.filter_cons, hfilter]
      simp only [Bool.false_eq_true, if_false]
      rw [lookup_filter_ne m n t h, List.lookup_cons, hline]
    · have hfilter : (!(c.1 == n)) = true := by simp [hc]
      rw [List.filter_cons, hfilter]
      simp only [if_true]
      rw [List.lookup_cons, List.lookup_cons]
      cases hmc : (m == c.1) with
      | true => rfl
      | false => exact lookup_filter_ne m n t h

/-- Reading a cell after writing one: the written name reads the new value,
every other name is untouched. -/
theorem rowCell_setCell (r : NRow) (n : String) (v : PQ) (m : String) :
    rowCell (setCell r n v) m = if m = n then v else rowCell r m := by
  by_cases h : m = n
  · subst h
    rw [if_pos rfl, rowCell, setCell]
    simp only [List.lookup_cons, beq_self_eq_true]
    rfl
  · rw [if_neg h, rowCell, setCell]
    simp only [List.lookup_cons, beq_eq_false_iff_ne.mpr h]
    rw [rowCell, lookup_filter_ne m n r.cells h]

theorem isPrefixOf_self_append :
    ∀ p x : List Char, p.isPrefixOf (p ++ x) = true
  | [], _ => by simp [List.isPrefixOf]
  | c :: cs, x => by
    simp [List.isPrefixOf, isPrefixOf_self_append cs x]

/-- A string starting with `p` passes the `strHasPre p` test. -/
theorem strHasPre_append (p x : String) : strHasPre p (p ++ x) = true := by
  rw [strHasPre, String.data_append]
  exact isPrefixOf_self_append _ _

/-- The synthesized `latency_ms_*` column name is not `response_time_ms`. -/
theorem msCol_ne_response (a b : String) :
    ("latency_ms_" ++ a ++ "_" ++ b) ≠ "response_time_ms" := by
  intro h
  have h1 : strHasPre "latency_ms_" ("latency_ms_" ++ (a ++ "_" ++ b)) = true :=
    strHasPre_append _ _
  rw [show "latency_ms_" ++ (a ++ "_" ++ b) = "latency_ms_" ++ a ++ "_" ++ b by
    simp [String.append_assoc], h] at h1
  exact absurd h1 (by decide)

/-- The synthesized `latency_ms_*` column name is not a raw latency
column. -/
theorem msCol_not_raw (a b : String) :
    isRawLatencyCol ("latency_ms_" ++ a ++ "_" ++ b) = false := by
  have h1 : strHasPre "latency_ms_" ("latency_ms_" ++ a ++ "_" ++ b) = true := by
    rw [show "latency_ms_" ++ a ++ "_" ++ b = "latency_ms_" ++ (a ++ "_" ++ b) by
      simp [String.append_assoc]]
    exact strHasPre_append _ _
  rw [isRawLatencyCol, h1]
  simp

/-- The `response_time_ms` accumulator column is not a raw latency
column. -/
theorem response_not_raw : isRawLatencyCol "response_time_ms" = false := by
  decide

theorem respInv_map_setCell_notRaw (rows : List NRow) (n : String)
    (g : NRow → PQ) (hn1 : n ≠ "response_time_ms")
    (hn2 : isRawLatencyCol n = false) (h : RespInv rows) :
    RespInv (rows.map fun r => setCell r n (g r)) := by
  intro r' hr'
  obtain ⟨r, hr, rfl⟩ := List.mem_map.1 hr'
  obtain ⟨q, hq, h0⟩ := h r hr
  refine ⟨q, ?_, ?_⟩
  · rw [rowCell_setCell, if_neg (fun hc => hn1 hc.symm), hq]
  · intro hall
    refine h0 fun c hc => ?_
    have hcn : c ≠ n := fun hcn => by
      rw [hcn, hn2] at hc
      exact absurd hc (by simp)
    have := hall c hc
    rwa [rowCell_setCell, if_neg hcn] at this

theorem respInv_latencyStep (acc : List NRow) (col : String)
    (hcol : isRawLatencyCol col = true) (h : RespInv acc) :
    RespInv (latencyStep acc col) := by
  rw [latencyStep]
  by_cases hp : 3 ≤ (pySplit2 col).length
  · rw [if_pos hp]
    have hcolresp : col ≠ "response_time_ms" := fun hc => by
      rw [hc, response_not_raw] at hcol
      exact absurd hcol (by simp)
    have hstage1 : RespInv (if (allCols acc).contains
        ("latency_ms_" ++ (pySplit2 col).getD 1 "" ++ "_" ++ (pySplit2 col).getD 2 "")
        then acc
        else acc.map fun r =>
          setCell r ("latency_ms_" ++ (pySplit2 col).getD 1 "" ++ "_" ++
            (pySplit2 col).getD 2 "")
            ((rowCell r col).map fun v => qmul v 1000)) := by
      by_cases hcont : (allCols acc).contains
          ("latency_ms_" ++ (pySplit2 col).getD 1 "" ++ "_" ++
          (pySplit2 col).getD 2 "") = true
      · rw [if_pos hcont]
        exact h
      · rw [if_neg hcont]
        exact respInv_map_setCell_notRaw acc _ _ (msCol_ne_response _ _)
          (msCol_not_raw _ _) h
    intro r' hr'
    obtain ⟨r, hr, rfl⟩ := List.mem_map.1 hr'
    obtain ⟨q, hq, h0⟩ := hstage1 r hr
    cases hv : rowCell r col with
    | none =>
      exact ⟨q, hq, h0⟩
    | some v =>
      refine ⟨qadd q (qmul v 1000), ?_, ?_⟩
      · rw [rowCell_setCell, if_pos rfl, hq]
        rfl
      · intro hall
        exfalso
        have := hall col hcol
        rw [rowCell_setCell, if_neg hcolresp, hv] at this
        exact Option.some_ne_none v this
  · rw [if_neg hp]
    exact h

theorem respInv_foldl :
    ∀ (lcols : List String) (acc : List NRow),
      (∀ c ∈ lcols, isRawLatencyCol c = true) → RespInv acc →
      RespInv (lcols.foldl latencyStep acc)
  | [], acc, _, h => h
  | c :: cs, acc, hall, h => by
    rw [List.foldl_cons]
    exact respInv_foldl cs (latencyStep acc c)
      (fun d hd => hall d (by simp [hd]))
      (respInv_latencyStep acc c (hall c (by simp)) h)

/-- C10 (implicit claim): whenever the flattened table has at least one
raw latency column (`latency_*` but not `latency_ms_*`) and no
`response_time_ms` column yet, the latency block gives every row a non-NaN
`response_time_ms`, and a row in which every raw latency column is NaN gets
exactly `0.0`. -/
theorem response_time_every_row (rows : List NRow)
    (h1 : ((allCols rows).filter isRawLatencyCol) ≠ [])
    (h2 : (allCols rows).contains "response_time_ms" = false) :
    ∀ r ∈ latencyMsBlock rows,
      (∃ q : ℚ, rowCell r "response_time_ms" = some q) ∧
      ((∀ c : String, isRawLatencyCol c = true → rowCell r c = none) →
        rowCell r "response_time_ms" = some 0) := by
  have hInv : RespInv (latencyMsBlock rows) := by
    rw [latencyMsBlock]
    have hemp : ((allCols rows).filter isRawLatencyCol).isEmpty = false := by
      cases hc : (allCols rows).filter isRawLatencyCol with
      | nil => exact absurd hc h1
      | cons a t => rfl
    rw [hemp]
    simp only [Bool.false_eq_true, if_false, h2]
    refine respInv_foldl _ _ (fun c hc => (List.mem_filter.1 hc).2) ?_
    intro r' hr'
    obtain ⟨r, hr, rfl⟩ := List.mem_map.1 hr'
    refine ⟨0, ?_, fun _ => rfl⟩
    rw [rowCell_setCell, if_pos rfl]
  intro r hr
  obtain ⟨q, hq, h0⟩ := hInv r hr
  exact ⟨⟨q, hq⟩, fun hall => by rw [hq, h0 hall]⟩

theorem response_time_every_row_witness :
    (∃ q : ℚ,
      rowCell ((latencyMsBlock c10rows).headD ⟨99, "", "", 0, []⟩)
        "response_time_ms" = some q) ∧
    ((∀ c : String, isRawLatencyCol c = true →
        rowCell ((latencyMsBlock c10rows).headD ⟨99, "", "", 0, []⟩) c = none) →
      rowCell ((latencyMsBlock c10rows).headD ⟨99, "", "", 0, []⟩)
        "response_time_ms" = some 0) :=
  response_time_every_row c10rows (by decide) (by decide) _ (by decide)

/-- C6 (code bug): a Prometheus-style pair `[1633024800, null]` reaches
`float(None)` inside the first list branch, whose handler catches only
`IndexError` and `ValueError`; the `TypeError` escapes, so the coercion
*does* raise, contradicting the claim and the spec's "never an error"
contract.  The same `null` as a bare scalar value is caught and becomes
`0.0`, which shows the asymmetry is a slip in the list branches. -/
theorem coerce_list_null_raises :
    extract_metrics_coerce (.jarr [.jnum 1633024800, .jnull]) =
      .error .typeError ∧
    extract_metrics_coerce .jnull = .ok (some 0) :=
  ⟨rfl, rfl⟩

/-- C9 counterexample: a table with a numeric `*_method` column is
changed in place by `analyze_impact` (the cell is string-cast), so the
table passed in is *not* unchanged after the call. -/
theorem analyze_impact_mutates_counterexample :
    analyzeImpactPrep (fun _ => "nan")
        [("latency_ms_temperature_T_method", [PCell.pnum (some 5)])] ≠
      [("latency_ms_temperature_T_method", [PCell.pnum (some 5)])] := by
  decide

/-- C9 (amended): `calculate_derived_metrics` leaves its input table
unchanged (it works on a copy), and the in-place preprocessing of
`analyze_impact` touches only the `*_method` columns (string-cast) and the
plain `latency_ms_*` columns (numeric coercion): every other column of the
input survives the call unchanged. -/
theorem analyze_impact_mutation_scope (reprFn : PQ → String) (t : STable)
    (name : String) (vals : List PCell)
    (hm : (name, vals) ∈ t)
    (h1 : isMethodCol name = false)
    (h2 : isPlainLatencyMsCol name = false) :
    (name, vals) ∈ analyzeImpactPrep reprFn t ∧ derivedInputAfter t = t := by
  refine ⟨?_, rfl⟩
  rw [analyzeImpactPrep]
  refine List.mem_map.2 ⟨(name, vals), hm, ?_⟩
  simp [h1, h2]

theorem analyze_impact_mutation_scope_witness :
    ("cpu_X", [PCell.pnum (some 1)]) ∈
      analyzeImpactPrep (fun _ => "nan") [("cpu_X", [PCell.pnum (some 1)])] ∧
    derivedInputAfter [("cpu_X", [PCell.pnum (some 1)])] =
      [("cpu_X", [PCell.pnum (some 1)])] :=
  analyze_impact_mutation_scope (fun _ => "nan") _ "cpu_X" _ (by decide)
    (by decide) (by decide)

end MetricsEngine
